import Mathlib

/-!
# Signaling server and negotiation client of the two-party video call

A shallow embedding of `src/server.js` (the socket.io signaling server: room
table, relay handlers, cleanup) and of the negotiation callbacks of
`src/app.js`, followed by the properties of the specification that were
checked against them.

Modelling conventions.

* The JavaScript `Map` named `rooms` is an association list in insertion
  order; a `Set` of socket ids is a list to which `add` appends only absent
  elements, so `size` is `List.length`.
* Every socket.io connection is a record `Conn`: its id, the closure variable
  `currentRoom` of its `io.on('connection')` callback, and the socket.io rooms
  it entered through `socket.join`.  socket.io also places every connected
  socket in the room named by its own id and takes a socket out of all rooms
  when it disconnects (before the `disconnect` listeners run); a room is left
  earlier only through `socket.leave`, which `server.js` never calls.
* `socket.emit` delivers to the socket itself and `io.to(room).emit` to every
  connected socket in `room`.  `socket.to(room).emit` is a broadcast to `room`
  with the room named `socket.id` excepted (socket.io 4): it reaches every
  connected socket in `room` that is not in the room named by the sender's id,
  so it skips the sender and every socket that joined a room of that name.
* A relayed value is parsed from the client's packet and serialised again when
  it is emitted; `wire` is what that does to a value, and an `Emit` holds the
  arguments as the receiver gets them.
* Identifier fields of client payloads (`roomId`, `to`) are strings, `roomId`
  possibly absent; other fields are opaque values.  Every handler runs to
  completion before the next event is handled.
-/

namespace Signaling

/-! ## Values and objects -/

/-- A payload value as the client put it on the wire.  The server handles the
parsed value and socket.io serialises it again on the way out: `str` is a string,
`json` any other value that `JSON.parse` followed by `JSON.stringify` gives back as
it was, by its JSON text, and `unstable` a value that this round trip changes (a
number beyond the range or precision of a double, say), by its text and the text
that comes out. -/
inductive Val where
  | str (s : String)
  | json (text : String)
  | unstable (text : String) (out : String)
  deriving DecidableEq, Repr

/-- What a value is once the server has parsed and re-serialised it. -/
def wire : Val → Val
  | .str s => .str s
  | .json text => .json text
  | .unstable _ out => .json out

/-- A JavaScript object: its own properties in enumeration order. -/
abbrev Obj := List (String × Val)

/-- The serialisation round trip on the properties of an emitted object. -/
def wireObj (o : Obj) : Obj :=
  o.map (fun p => (p.1, wire p.2))

/-- The array index a property key stands for, when it is one: a canonical
decimal numeral below `2^32 - 1`.  JavaScript enumerates such keys first, in
ascending order. -/
def arrayIndex (k : String) : Option Nat :=
  match k.data with
  | [] => none
  | c :: cs =>
    if (c :: cs).all Char.isDigit && (c != '0' || cs.isEmpty) then
      let n := (c :: cs).foldl (fun acc d => 10 * acc + (d.toNat - 48)) 0
      if n < 4294967295 then some n else none
    else none

/-- Property write `o[k] = v`: an existing property keeps its place, a new array
index goes after the smaller indices, any other new key goes last. -/
def objSet (o : Obj) (k : String) (v : Val) : Obj :=
  if o.any (fun p => p.1 == k) then o.map (fun p => if p.1 == k then (k, v) else p)
  else
    match arrayIndex k with
    | none => o ++ [(k, v)]
    | some n =>
      let smaller (p : String × Val) : Bool :=
        match arrayIndex p.1 with
        | some m => m < n
        | none => false
      o.takeWhile smaller ++ (k, v) :: o.dropWhile smaller

/-- Object spread `{ ...o, ...src }`: the properties of `src` are written onto
`o` one after the other. -/
def objSpread (o src : Obj) : Obj :=
  src.foldl (fun acc p => objSet acc p.1 p.2) o

/-- JavaScript truthiness of a value that is `undefined`/`null` (`none`) or a
string: only a non-empty string is truthy. -/
def truthy : Option String → Option String
  | some r => if r = "" then none else some r
  | none => none

/-! ## The room table (`const rooms = new Map()`) -/

/-- Socket identifier (`socket.id`). -/
abbrev SocketId := String

/-- The table `roomId -> Set(socketId)`. -/
abbrev Rooms := List (String × List SocketId)

/-- The call `rooms.has(roomId)`. -/
def mapHas (rooms : Rooms) (roomId : String) : Bool :=
  rooms.any (fun p => p.1 == roomId)

/-- The call `rooms.get(roomId)`. -/
def mapGet (rooms : Rooms) (roomId : String) : Option (List SocketId) :=
  (rooms.find? (fun p => p.1 == roomId)).map (fun p => p.2)

/-- The call `rooms.set(roomId, peers)`. -/
def mapSet (rooms : Rooms) (roomId : String) (peers : List SocketId) : Rooms :=
  if mapHas rooms roomId then rooms.map (fun p => if p.1 == roomId then (roomId, peers) else p)
  else rooms ++ [(roomId, peers)]

/-- The call `rooms.delete(roomId)`. -/
def mapDelete (rooms : Rooms) (roomId : String) : Rooms :=
  rooms.filter (fun p => !(p.1 == roomId))

/-- The call `set.add(x)`. -/
def setAdd (set : List String) (x : String) : List String :=
  if x ∈ set then set else set ++ [x]

/-- The call `set.delete(x)`. -/
def setDelete (set : List String) (x : String) : List String :=
  set.filter (fun y => !(y == x))

/-- The function `getPeers(roomId)`: creates the room lazily and returns the
table together with the room's occupant set. -/
def getPeers (rooms : Rooms) (roomId : String) : Rooms × List SocketId :=
  let rooms1 := if !(mapHas rooms roomId) then mapSet rooms roomId [] else rooms
  (rooms1, (mapGet rooms1 roomId).getD [])

/-! ## Connections, state and emissions -/

/-- One connected socket. -/
structure Conn where
  id : SocketId
  currentRoom : Option String
  joined : List String
  deriving DecidableEq, Repr

/-- Server state: the room table and the connected sockets. -/
structure State where
  rooms : Rooms
  conns : List Conn
  deriving DecidableEq, Repr

/-- A message delivered to one socket. -/
structure Emit where
  target : SocketId
  event : String
  args : List Obj
  deriving DecidableEq, Repr

/-- The state at start-up: empty table, nobody connected. -/
def init : State := ⟨[], []⟩

/-- The connection record of a socket id, when connected. -/
def findConn (s : State) (id : SocketId) : Option Conn :=
  s.conns.find? (fun c => c.id == id)

/-- The closure variable `currentRoom` of a socket (`null` once it is gone). -/
def currentRoomOf (s : State) (id : SocketId) : Option String :=
  (findConn s id).bind (fun c => c.currentRoom)

/-- Writes back the closure variables of one socket. -/
def putConn (conns : List Conn) (sock : Conn) : List Conn :=
  conns.map (fun c => if c.id == sock.id then sock else c)

/-- Whether a connected socket is in the socket.io room `room`. -/
def inRoom (c : Conn) (room : String) : Bool :=
  c.id == room || room ∈ c.joined

/-- The call `io.to(room).emit(event, ...args)`. -/
def ioTo (s : State) (room : String) (event : String) (args : List Obj) : List Emit :=
  (s.conns.filter (fun c => inRoom c room)).map (fun c => ⟨c.id, event, args.map wireObj⟩)

/-- The call `socket.to(room).emit(event, ...args)` made by the socket `sender`:
a broadcast to `room` that excepts the room named `sender`. -/
def socketTo (s : State) (sender : SocketId) (room : String) (event : String)
    (args : List Obj) : List Emit :=
  (s.conns.filter (fun c => inRoom c room && !(inRoom c sender))).map
    (fun c => ⟨c.id, event, args.map wireObj⟩)

/-! ## The handlers of `io.on('connection')` -/

/-- Handler `socket.on('join', ({ roomId }) => ...)`. -/
def onJoin (s : State) (sock : Conn) (roomId : Option String) : State × List Emit :=
  match truthy roomId with
  | none => (s, [⟨sock.id, "error", [[("message", Val.str "roomId required")]]⟩])
  | some r =>
    let (rooms1, peers) := getPeers s.rooms r
    if peers.length ≥ 2 then
      (⟨rooms1, s.conns⟩, [⟨sock.id, "room-full", []⟩])
    else
      let peers2 := setAdd peers sock.id
      let rooms2 := mapSet rooms1 r peers2
      let sock2 : Conn := ⟨sock.id, some r, setAdd sock.joined r⟩
      let s2 : State := ⟨rooms2, putConn s.conns sock2⟩
      let e1 := socketTo s2 sock.id r "peer-joined" [[("id", Val.str sock.id)]]
      let e2 := if peers2.length = 2 then ioTo s2 r "ready" [] else []
      (s2, e1 ++ e2)

/-- Handler `socket.on('offer', ({ sdp, to }) => ...)`; `dest` is the payload's
`to`. -/
def onOffer (s : State) (sock : Conn) (sdp : Val) (dest : String) : State × List Emit :=
  match truthy sock.currentRoom with
  | none => (s, [])
  | some _ => (s, socketTo s sock.id dest "offer" [[("sdp", sdp), ("from", Val.str sock.id)]])

/-- Handler `socket.on('answer', ({ sdp, to }) => ...)`. -/
def onAnswer (s : State) (sock : Conn) (sdp : Val) (dest : String) : State × List Emit :=
  match truthy sock.currentRoom with
  | none => (s, [])
  | some _ => (s, socketTo s sock.id dest "answer" [[("sdp", sdp), ("from", Val.str sock.id)]])

/-- Handler `socket.on('ice-candidate', ({ candidate, to }) => ...)`. -/
def onIceCandidate (s : State) (sock : Conn) (candidate : Val) (dest : String) :
    State × List Emit :=
  match truthy sock.currentRoom with
  | none => (s, [])
  | some _ =>
    (s, socketTo s sock.id dest "ice-candidate"
      [[("candidate", candidate), ("from", Val.str sock.id)]])

/-- Handler `socket.on('signal', (payload) => ...)`. -/
def onSignal (s : State) (sock : Conn) (payload : Obj) : State × List Emit :=
  match truthy sock.currentRoom with
  | none => (s, [])
  | some r =>
    (s, socketTo s sock.id r "signal" [objSpread [("from", Val.str sock.id)] payload])

/-- The function `cleanup()`. -/
def cleanup (s : State) (sock : Conn) : State × List Emit :=
  match truthy sock.currentRoom with
  | none => (s, [])
  | some r =>
    let (rooms1, peers) := getPeers s.rooms r
    let peers2 := setDelete peers sock.id
    let rooms2 := mapSet rooms1 r peers2
    let e := socketTo s sock.id r "peer-left" [[("id", Val.str sock.id)]]
    let rooms3 := if peers2.length = 0 then mapDelete rooms2 r else rooms2
    (⟨rooms3, putConn s.conns ⟨sock.id, none, sock.joined⟩⟩, e)

/-- What reaches the server. -/
inductive Event where
  | connect (id : SocketId)
  | join (id : SocketId) (roomId : Option String)
  | offer (id : SocketId) (sdp : Val) (dest : String)
  | answer (id : SocketId) (sdp : Val) (dest : String)
  | iceCandidate (id : SocketId) (candidate : Val) (dest : String)
  | signal (id : SocketId) (payload : Obj)
  | leave (id : SocketId)
  | disconnect (id : SocketId)
  deriving DecidableEq, Repr

/-- Runs the listener `h` of socket `id`; a socket that is not connected sends
nothing. -/
def withSocket (s : State) (id : SocketId) (h : Conn → State × List Emit) :
    State × List Emit :=
  match findConn s id with
  | none => (s, [])
  | some sock => h sock

/-- One event handled to completion: the new state and what was delivered. -/
def step (s : State) : Event → State × List Emit
  | .connect id =>
    match findConn s id with
    | some _ => (s, [])
    | none => (⟨s.rooms, s.conns ++ [⟨id, none, []⟩]⟩, [])
  | .join id roomId => withSocket s id (fun sock => onJoin s sock roomId)
  | .offer id sdp dest => withSocket s id (fun sock => onOffer s sock sdp dest)
  | .answer id sdp dest => withSocket s id (fun sock => onAnswer s sock sdp dest)
  | .iceCandidate id candidate dest =>
    withSocket s id (fun sock => onIceCandidate s sock candidate dest)
  | .signal id payload => withSocket s id (fun sock => onSignal s sock payload)
  | .leave id => withSocket s id (fun sock => cleanup s sock)
  | .disconnect id =>
    withSocket s id (fun sock =>
      cleanup ⟨s.rooms, s.conns.filter (fun c => !(c.id == id))⟩ sock)

/-- A sequence of events handled in order: the final state and everything
delivered on the way. -/
def run (s : State) : List Event → State × List Emit
  | [] => (s, [])
  | e :: es =>
    let r1 := step s e
    let r2 := run r1.1 es
    (r2.1, r1.2 ++ r2.2)

/-- The occupants of a room according to the table (none when it is absent). -/
def occupants (s : State) (roomId : String) : List SocketId :=
  (mapGet s.rooms roomId).getD []

/-- States the server can be in: those reached from start-up by some events. -/
def Reachable (s : State) : Prop := ∃ evs : List Event, (run init evs).1 = s

/-- Every room of the table is non-empty and holds at most two socket ids. -/
def RoomsOk (rooms : Rooms) : Prop :=
  ∀ p ∈ rooms, p.2 ≠ [] ∧ p.2.length ≤ 2

/-- The closure variable `currentRoom` of a connected socket is `null` or a
non-empty room id. -/
def ConnsOk (conns : List Conn) : Prop :=
  ∀ c ∈ conns, c.currentRoom ≠ some ""

end Signaling

/-! ## The negotiation callbacks of `src/app.js`

`RTCPeerConnection` is a browser object; the callbacks are embedded over an
arbitrary implementation `PcApi σ` of the calls they make.  A rejected promise ends
the callback where it stands (or enters its `catch`), keeping what was assigned
before. -/

namespace Negotiation

open Signaling (truthy)

/-- A session description (`RTCSessionDescription`). -/
structure Desc where
  type : String
  sdp : String
  deriving DecidableEq, Repr

/-- The calls the client makes on `pc`, over peer-connection states `σ`; an
`error` is a rejected promise with its message. -/
structure PcApi (σ : Type) where
  createOffer : σ → Except String Desc
  createAnswer : σ → Except String Desc
  setLocalDescription : σ → Desc → Except String σ
  setRemoteDescription : σ → Desc → Except String σ
  localDescription : σ → Option Desc
  restartIce : Option (σ → σ)

/-- The module variables of `app.js` that negotiation uses, with the id of the
client's socket. -/
structure Client (σ : Type) where
  socketId : String
  pc : Option σ
  partnerId : Option String

/-- What a callback does to the outside. -/
inductive Act where
  | emit (event : String) (sdp : Option Desc) (dest : String)
  | log (msg : String)
  | setStatus (s : String)
  | restartIce
  deriving DecidableEq, Repr

/-- The function `startNegotiation()`. -/
def startNegotiation {σ : Type} (api : PcApi σ) (c : Client σ) : Client σ × List Act :=
  match c.pc, truthy c.partnerId with
  | some pc, some partner =>
    match api.createOffer pc with
    | .error e => (c, [.log "Starting negotiation...", .log ("Negotiation error: " ++ e)])
    | .ok offer =>
      match api.setLocalDescription pc offer with
      | .error e => (c, [.log "Starting negotiation...", .log ("Negotiation error: " ++ e)])
      | .ok pc2 =>
        (⟨c.socketId, some pc2, c.partnerId⟩,
          [.log "Starting negotiation...", .emit "offer" (api.localDescription pc2) partner,
            .log "Offer sent manually ✅"])
  | _, _ => (c, [])

/-- Callback `pc.onnegotiationneeded`. -/
def onnegotiationneeded {σ : Type} (api : PcApi σ) (c : Client σ) : Client σ × List Act :=
  match c.pc, truthy c.partnerId with
  | some pc, some partner =>
    match api.createOffer pc with
    | .error e => (c, [.log ("negotiation error " ++ e)])
    | .ok offer =>
      match api.setLocalDescription pc offer with
      | .error e => (c, [.log ("negotiation error " ++ e)])
      | .ok pc2 =>
        (⟨c.socketId, some pc2, c.partnerId⟩,
          [.emit "offer" (api.localDescription pc2) partner, .log "Sent offer"])
  | _, _ => (c, [])

/-- Listener `socket.on('peer-joined', async ({ id }) => ...)`. -/
def onPeerJoined {σ : Type} (api : PcApi σ) (c : Client σ) (id : String) :
    Client σ × List Act :=
  let r := startNegotiation api ⟨c.socketId, c.pc, some id⟩
  (r.1, .log ("Peer joined: " ++ id) :: r.2)

/-- Listener `socket.on('offer', async ({ sdp, from }) => ...)`; `sender` is the
payload's `from`. -/
def onOffer {σ : Type} (api : PcApi σ) (c : Client σ) (sdp : Desc) (sender : String) :
    Client σ × List Act :=
  match c.pc with
  | none => (⟨c.socketId, none, some sender⟩, [])
  | some pc =>
    match api.setRemoteDescription pc sdp with
    | .error _ => (⟨c.socketId, some pc, some sender⟩, [])
    | .ok pc1 =>
      match api.createAnswer pc1 with
      | .error _ => (⟨c.socketId, some pc1, some sender⟩, [])
      | .ok answer =>
        match api.setLocalDescription pc1 answer with
        | .error _ => (⟨c.socketId, some pc1, some sender⟩, [])
        | .ok pc2 =>
          (⟨c.socketId, some pc2, some sender⟩,
            [.emit "answer" (api.localDescription pc2) sender,
              .log "Received offer → sent answer"])

/-- Listener `socket.on('answer', async ({ sdp }) => ...)`. -/
def onAnswer {σ : Type} (api : PcApi σ) (c : Client σ) (sdp : Desc) : Client σ × List Act :=
  match c.pc with
  | none => (c, [])
  | some pc =>
    match api.setRemoteDescription pc sdp with
    | .error _ => (c, [])
    | .ok pc1 => (⟨c.socketId, some pc1, c.partnerId⟩, [.log "Received answer"])

/-- Callback `pc.onconnectionstatechange`; `connectionState` is the value of
`pc.connectionState` when it fires.  The callback exists only on a created `pc`. -/
def onconnectionstatechange {σ : Type} (api : PcApi σ) (c : Client σ)
    (connectionState : String) : Client σ × List Act :=
  match c.pc with
  | none => (c, [])
  | some pc =>
    if connectionState = "failed" then
      match api.restartIce with
      | some restart =>
        (⟨c.socketId, some (restart pc), c.partnerId⟩,
          [.log ("PC state: " ++ connectionState), .setStatus connectionState,
            .log "ICE failed -> attempting restart", .restartIce])
      | none =>
        (c, [.log ("PC state: " ++ connectionState), .setStatus connectionState,
          .log "ICE failed -> attempting restart"])
    else (c, [.log ("PC state: " ++ connectionState), .setStatus connectionState])

/-- The connection-state changes of one call, reported one after the other. -/
def reportStates {σ : Type} (api : PcApi σ) (c : Client σ) : List String → Client σ × List Act
  | [] => (c, [])
  | st :: sts =>
    let r1 := onconnectionstatechange api c st
    let r2 := reportStates api r1.1 sts
    (r2.1, r1.2 ++ r2.2)

/-- How many times `pc.restartIce()` was called. -/
def restartCount (acts : List Act) : Nat :=
  acts.count Act.restartIce

/-- State of the reference peer connection used in the examples. -/
structure Pc where
  signalingState : String
  localDescription : Option Desc
  remoteDescription : Option Desc
  iceRestarts : Nat
  deriving DecidableEq, Repr

/-- A freshly created peer connection. -/
def newPc : Pc := ⟨"stable", none, none, 0⟩

/-- A peer connection following the WebRTC signaling-state rules for the calls made
here.  With `rollback` an inbound offer received in `have-local-offer` rolls the
local offer back and is applied; without it the call is rejected. -/
def referencePc (rollback : Bool) : PcApi Pc where
  createOffer := fun _ => .ok ⟨"offer", "local"⟩
  createAnswer := fun pc =>
    if pc.signalingState = "have-remote-offer" then .ok ⟨"answer", "local"⟩
    else .error "InvalidStateError"
  setLocalDescription := fun pc d =>
    if d.type = "offer" then
      .ok ⟨"have-local-offer", some d, pc.remoteDescription, pc.iceRestarts⟩
    else if pc.signalingState = "have-remote-offer" then
      .ok ⟨"stable", some d, pc.remoteDescription, pc.iceRestarts⟩
    else .error "InvalidStateError"
  setRemoteDescription := fun pc d =>
    if d.type = "offer" then
      if pc.signalingState = "stable" || rollback then
        .ok ⟨"have-remote-offer", pc.localDescription, some d, pc.iceRestarts⟩
      else .error "InvalidStateError"
    else if pc.signalingState = "have-local-offer" then
      .ok ⟨"stable", pc.localDescription, some d, pc.iceRestarts⟩
    else .error "InvalidStateError"
  localDescription := fun pc => pc.localDescription
  restartIce := some (fun pc =>
    ⟨pc.signalingState, pc.localDescription, pc.remoteDescription, pc.iceRestarts + 1⟩)

/-- Whether identifier `a` sorts lower than `b`: the order of `<` on JavaScript
strings, character codes compared in sequence. -/
def sortsLower (a b : String) : Bool :=
  decide (a.data < b.data)

/-- The acts of a callback that send a message through the socket. -/
def sent (acts : List Act) : List Act :=
  acts.filter (fun a => match a with | .emit _ _ _ => true | _ => false)

end Negotiation

namespace Signaling

/-! ## Lemmas on the room table -/

theorem mem_mapSet {rooms : Rooms} {k : String} {v : List SocketId} {p : String × List SocketId}
    (h : p ∈ mapSet rooms k v) : (p ∈ rooms ∧ p.1 ≠ k) ∨ p = (k, v) := by
  unfold mapSet at h
  split at h
  · rw [List.mem_map] at h
    obtain ⟨q, hq, rfl⟩ := h
    by_cases hk : q.1 = k
    · right; simp [hk]
    · left; simp [hk, hq]
  · rw [List.mem_append] at h
    rcases h with h | h
    · left
      refine ⟨h, fun hk => ?_⟩
      rename_i hn
      apply hn
      unfold mapHas
      rw [List.any_eq_true]
      exact ⟨p, h, by simp [hk]⟩
    · right; simpa using h

theorem mem_mapDelete {rooms : Rooms} {k : String} {p : String × List SocketId}
    (h : p ∈ mapDelete rooms k) : p ∈ rooms ∧ p.1 ≠ k := by
  unfold mapDelete at h
  rw [List.mem_filter] at h
  exact ⟨h.1, by simpa using h.2⟩

theorem mem_of_mapGet {rooms : Rooms} {k : String} {v : List SocketId}
    (h : mapGet rooms k = some v) : (k, v) ∈ rooms := by
  unfold mapGet at h
  rw [Option.map_eq_some'] at h
  obtain ⟨q, hq, rfl⟩ := h
  have hk := List.find?_some hq
  have hm := List.mem_of_find?_eq_some hq
  have : q.1 = k := by simpa using hk
  rw [← this]
  exact hm

theorem mapGet_of_not_has {rooms : Rooms} {k : String} (h : mapHas rooms k = false) :
    mapGet rooms k = none := by
  unfold mapGet
  rw [Option.map_eq_none', List.find?_eq_none]
  intro q hq
  unfold mapHas at h
  rw [List.any_eq_false] at h
  exact h q hq

theorem getPeers_of_has {rooms : Rooms} {k : String} (h : mapHas rooms k = true) :
    getPeers rooms k = (rooms, (mapGet rooms k).getD []) := by
  simp [getPeers, h]

theorem getPeers_of_not_has {rooms : Rooms} {k : String} (h : mapHas rooms k = false) :
    getPeers rooms k = (rooms ++ [(k, [])], []) := by
  have hg := mapGet_of_not_has h
  unfold mapGet at hg
  rw [Option.map_eq_none'] at hg
  simp [getPeers, h, mapSet, mapGet, List.find?_append, hg]

theorem setAdd_ne_nil (set : List String) (x : String) : setAdd set x ≠ [] := by
  unfold setAdd
  split
  · rename_i h
    exact List.ne_nil_of_mem h
  · simp

theorem setAdd_length_le (set : List String) (x : String) :
    (setAdd set x).length ≤ set.length + 1 := by
  unfold setAdd
  split <;> simp

theorem setDelete_length_le (set : List String) (x : String) :
    (setDelete set x).length ≤ set.length := by
  unfold setDelete
  exact List.length_filter_le _ _

/-! ## Invariants of the reachable states -/

theorem onJoin_roomsOk (s : State) (sock : Conn) (roomId : Option String)
    (h : RoomsOk s.rooms) : RoomsOk (onJoin s sock roomId).1.rooms := by
  unfold onJoin
  cases truthy roomId with
  | none => exact h
  | some r =>
    cases hh : mapHas s.rooms r with
    | false =>
      simp only [getPeers_of_not_has hh]
      intro p hp
      split at hp
      · rename_i hlen
        simp at hlen
      · rcases mem_mapSet hp with ⟨hp1, hp2⟩ | rfl
        · rw [List.mem_append] at hp1
          rcases hp1 with hp1 | hp1
          · exact h p hp1
          · simp at hp1
            exact absurd (by rw [hp1]) hp2
        · exact ⟨setAdd_ne_nil [] sock.id, by simp [setAdd]⟩
    | true =>
      simp only [getPeers_of_has hh]
      split
      · exact h
      · rename_i hlen
        intro p hp
        rcases mem_mapSet hp with ⟨hp1, _⟩ | rfl
        · exact h p hp1
        · refine ⟨setAdd_ne_nil ((mapGet s.rooms r).getD []) sock.id, ?_⟩
          have := setAdd_length_le ((mapGet s.rooms r).getD []) sock.id
          simp only at this ⊢
          omega

theorem cleanup_roomsOk (s : State) (sock : Conn)
    (h : RoomsOk s.rooms) : RoomsOk (cleanup s sock).1.rooms := by
  unfold cleanup
  cases truthy sock.currentRoom with
  | none => exact h
  | some r =>
    have key : ∀ (rooms1 : Rooms) (peers : List SocketId),
        (∀ p ∈ rooms1, p.1 ≠ r → p ∈ s.rooms) → peers.length ≤ 2 →
        RoomsOk (if (setDelete peers sock.id).length = 0
          then mapDelete (mapSet rooms1 r (setDelete peers sock.id)) r
          else mapSet rooms1 r (setDelete peers sock.id)) := by
      intro rooms1 peers h1 h2 p hp
      split at hp
      · obtain ⟨hp1, hp2⟩ := mem_mapDelete hp
        rcases mem_mapSet hp1 with ⟨hp3, _⟩ | rfl
        · exact h p (h1 p hp3 hp2)
        · exact absurd rfl hp2
      · rename_i hne
        rcases mem_mapSet hp with ⟨hp3, hp4⟩ | rfl
        · exact h p (h1 p hp3 hp4)
        · refine ⟨fun h0 => hne ?_, ?_⟩
          · have h0 : setDelete peers sock.id = [] := h0
            rw [h0]; rfl
          have := setDelete_length_le peers sock.id
          simp only at this ⊢
          omega
    cases hh : mapHas s.rooms r with
    | false =>
      simp only [getPeers_of_not_has hh]
      apply key
      · intro p hp hne
        rw [List.mem_append] at hp
        rcases hp with hp | hp
        · exact hp
        · simp at hp
          exact absurd (by rw [hp]) hne
      · simp
    | true =>
      simp only [getPeers_of_has hh]
      apply key
      · intro p hp _
        exact hp
      · cases hg : mapGet s.rooms r with
        | none => simp
        | some v => exact (h _ (mem_of_mapGet hg)).2

theorem withSocket_roomsOk (s : State) (id : SocketId) (f : Conn → State × List Emit)
    (h : RoomsOk s.rooms) (hf : ∀ sock, RoomsOk (f sock).1.rooms) :
    RoomsOk (withSocket s id f).1.rooms := by
  unfold withSocket
  cases findConn s id with
  | none => exact h
  | some sock => exact hf sock

theorem step_roomsOk (s : State) (e : Event) (h : RoomsOk s.rooms) :
    RoomsOk (step s e).1.rooms := by
  cases e with
  | connect id =>
    simp only [step]
    cases findConn s id <;> exact h
  | join id roomId => exact withSocket_roomsOk s id _ h (fun sock => onJoin_roomsOk s sock roomId h)
  | offer id sdp dest =>
    refine withSocket_roomsOk s id _ h (fun sock => ?_)
    unfold onOffer
    cases truthy sock.currentRoom <;> exact h
  | answer id sdp dest =>
    refine withSocket_roomsOk s id _ h (fun sock => ?_)
    unfold onAnswer
    cases truthy sock.currentRoom <;> exact h
  | iceCandidate id candidate dest =>
    refine withSocket_roomsOk s id _ h (fun sock => ?_)
    unfold onIceCandidate
    cases truthy sock.currentRoom <;> exact h
  | signal id payload =>
    refine withSocket_roomsOk s id _ h (fun sock => ?_)
    unfold onSignal
    cases truthy sock.currentRoom <;> exact h
  | leave id => exact withSocket_roomsOk s id _ h (fun sock => cleanup_roomsOk s sock h)
  | disconnect id =>
    exact withSocket_roomsOk s id _ h (fun sock => cleanup_roomsOk ⟨s.rooms, _⟩ sock h)

theorem run_roomsOk (evs : List Event) (s : State) (h : RoomsOk s.rooms) :
    RoomsOk (run s evs).1.rooms := by
  induction evs generalizing s with
  | nil => exact h
  | cons e es ih => exact ih (step s e).1 (step_roomsOk s e h)

theorem reachable_roomsOk {s : State} (h : Reachable s) : RoomsOk s.rooms := by
  obtain ⟨evs, rfl⟩ := h
  exact run_roomsOk evs init (fun p hp => by simp [init] at hp)

theorem truthy_ne_empty {o : Option String} {r : String} (h : truthy o = some r) : r ≠ "" := by
  unfold truthy at h
  split at h
  · split at h
    · cases h
    · rename_i hne
      cases h
      exact hne
  · cases h

theorem truthy_eq_none {o : Option String} (h : truthy o = none) (hne : o ≠ some "") :
    o = none := by
  unfold truthy at h
  split at h
  · split at h
    · rename_i r hr
      exact absurd (by rw [hr]) hne
    · cases h
  · rfl

theorem putConn_connsOk (conns : List Conn) (sock : Conn) (h : ConnsOk conns)
    (hs : sock.currentRoom ≠ some "") : ConnsOk (putConn conns sock) := by
  intro c hc
  unfold putConn at hc
  rw [List.mem_map] at hc
  obtain ⟨d, hd, rfl⟩ := hc
  split
  · exact hs
  · exact h d hd

theorem onJoin_connsOk (s : State) (sock : Conn) (roomId : Option String)
    (h : ConnsOk s.conns) : ConnsOk (onJoin s sock roomId).1.conns := by
  unfold onJoin
  cases ht : truthy roomId with
  | none => exact h
  | some r =>
    simp only
    split
    · exact h
    · refine putConn_connsOk _ _ h ?_
      have := truthy_ne_empty ht
      simpa using this

theorem cleanup_connsOk (s : State) (sock : Conn)
    (h : ConnsOk s.conns) : ConnsOk (cleanup s sock).1.conns := by
  unfold cleanup
  cases truthy sock.currentRoom with
  | none => exact h
  | some r => exact putConn_connsOk _ _ h (by simp)

theorem withSocket_connsOk (s : State) (id : SocketId) (f : Conn → State × List Emit)
    (h : ConnsOk s.conns) (hf : ∀ sock, ConnsOk (f sock).1.conns) :
    ConnsOk (withSocket s id f).1.conns := by
  unfold withSocket
  cases findConn s id with
  | none => exact h
  | some sock => exact hf sock

theorem step_connsOk (s : State) (e : Event) (h : ConnsOk s.conns) :
    ConnsOk (step s e).1.conns := by
  cases e with
  | connect id =>
    simp only [step]
    cases findConn s id with
    | some _ => exact h
    | none =>
      intro c hc
      simp only [List.mem_append, List.mem_singleton] at hc
      rcases hc with hc | rfl
      · exact h c hc
      · simp
  | join id roomId => exact withSocket_connsOk s id _ h (fun sock => onJoin_connsOk s sock roomId h)
  | offer id sdp dest =>
    refine withSocket_connsOk s id _ h (fun sock => ?_)
    unfold onOffer
    cases truthy sock.currentRoom <;> exact h
  | answer id sdp dest =>
    refine withSocket_connsOk s id _ h (fun sock => ?_)
    unfold onAnswer
    cases truthy sock.currentRoom <;> exact h
  | iceCandidate id candidate dest =>
    refine withSocket_connsOk s id _ h (fun sock => ?_)
    unfold onIceCandidate
    cases truthy sock.currentRoom <;> exact h
  | signal id payload =>
    refine withSocket_connsOk s id _ h (fun sock => ?_)
    unfold onSignal
    cases truthy sock.currentRoom <;> exact h
  | leave id => exact withSocket_connsOk s id _ h (fun sock => cleanup_connsOk s sock h)
  | disconnect id =>
    refine withSocket_connsOk s id _ h (fun sock => cleanup_connsOk ⟨s.rooms, _⟩ sock ?_)
    intro c hc
    exact h c (List.mem_of_mem_filter hc)

theorem run_connsOk (evs : List Event) (s : State) (h : ConnsOk s.conns) :
    ConnsOk (run s evs).1.conns := by
  induction evs generalizing s with
  | nil => exact h
  | cons e es ih => exact ih (step s e).1 (step_connsOk s e h)

/-! ## Lemmas on connections and broadcasts -/

theorem findConn_some {s : State} {id : SocketId} {c : Conn} (h : findConn s id = some c) :
    c ∈ s.conns ∧ c.id = id := by
  unfold findConn at h
  exact ⟨List.mem_of_find?_eq_some h, by simpa using List.find?_some h⟩

theorem findConn_none {s : State} {id : SocketId} (h : findConn s id = none) :
    ∀ c ∈ s.conns, c.id ≠ id := by
  unfold findConn at h
  rw [List.find?_eq_none] at h
  intro c hc
  simpa using h c hc

theorem conn_of_truthy {s : State} {x : SocketId} {r : String}
    (h : truthy (currentRoomOf s x) = some r) :
    ∃ c, findConn s x = some c ∧ truthy c.currentRoom = some r := by
  unfold currentRoomOf at h
  cases hf : findConn s x with
  | none => rw [hf] at h; simp [truthy] at h
  | some c => rw [hf] at h; exact ⟨c, rfl, h⟩

theorem socketTo_mem {s : State} {c : Conn} (sender : SocketId) (room event : String)
    (args : List Obj) (hc : c ∈ s.conns) (hr : inRoom c room = true)
    (hne : inRoom c sender = false) :
    (⟨c.id, event, args.map wireObj⟩ : Emit) ∈ socketTo s sender room event args := by
  unfold socketTo
  rw [List.mem_map]
  refine ⟨c, ?_, rfl⟩
  rw [List.mem_filter]
  exact ⟨hc, by simp [hr, hne]⟩

theorem socketTo_nil {s : State} (sender : SocketId) (room event : String) (args : List Obj)
    (h : ∀ c ∈ s.conns, inRoom c room = false) :
    socketTo s sender room event args = [] := by
  unfold socketTo
  rw [List.map_eq_nil_iff, List.filter_eq_nil_iff]
  intro c hc
  simp [h c hc]

theorem find_filter_other (conns : List Conn) (x z : SocketId) (h : z ≠ x) :
    (conns.filter (fun c => !(c.id == x))).find? (fun c => c.id == z) =
      conns.find? (fun c => c.id == z) := by
  induction conns with
  | nil => rfl
  | cons c cs ih =>
    by_cases hx : c.id = x
    · have hz : (c.id == z) = false := by
        rw [beq_eq_false_iff_ne]
        exact fun e => h (e.symm.trans hx)
      rw [List.filter_cons_of_neg (by simp [hx]), List.find?_cons, hz]
      exact ih
    · rw [List.filter_cons_of_pos (by simp [hx]), List.find?_cons, List.find?_cons, ih]

theorem find_filter_self (conns : List Conn) (x : SocketId) :
    (conns.filter (fun c => !(c.id == x))).find? (fun c => c.id == x) = none := by
  rw [List.find?_eq_none]
  intro c hc
  have := (List.mem_filter.mp hc).2
  simpa using this

theorem find_putConn (conns : List Conn) (x : SocketId) (sock sock2 : Conn)
    (h : conns.find? (fun c => c.id == x) = some sock) (h2 : sock2.id = sock.id) :
    (putConn conns sock2).find? (fun c => c.id == x) = some sock2 := by
  have hx : sock.id = x := by simpa using List.find?_some h
  induction conns with
  | nil => simp at h
  | cons c cs ih =>
    unfold putConn at ih ⊢
    rw [List.map_cons, List.find?_cons]
    by_cases hc : c.id = x
    · have e1 : (c.id == sock2.id) = true := by rw [h2, hx]; simp [hc]
      have e2 : (sock2.id == x) = true := by rw [h2, hx]; simp
      simp only [e1, if_true, e2]
    · have e1 : (c.id == sock2.id) = false := by
        rw [h2, hx, beq_eq_false_iff_ne]; exact hc
      have e2 : (c.id == x) = false := by rw [beq_eq_false_iff_ne]; exact hc
      rw [List.find?_cons, e2] at h
      simp only [e1, Bool.false_eq_true, if_false, e2]
      exact ih h

/-! ## Room table invariants -/

/-- C1: starting from the empty room table, after every finite sequence of events
(connect, join, relays, signal, leave, disconnect, by any sockets) every room of
the table holds at most 2 socket ids. -/
theorem room_holds_at_most_two (evs : List Event) :
    ∀ p ∈ (run init evs).1.rooms, p.2.length ≤ 2 :=
  fun p hp => (reachable_roomsOk ⟨evs, rfl⟩ p hp).2

/-- Witness for C1: a third socket asks to join a room that two sockets occupy. -/
theorem room_holds_at_most_two_witness :
    ("r", ["a", "b"]) ∈ (run init [.connect "a", .connect "b", .connect "c",
        .join "a" (some "r"), .join "b" (some "r"), .join "c" (some "r")]).1.rooms ∧
      ["a", "b"].length ≤ 2 :=
  ⟨by decide, room_holds_at_most_two [.connect "a", .connect "b", .connect "c",
    .join "a" (some "r"), .join "b" (some "r"), .join "c" (some "r")] ("r", ["a", "b"])
    (by decide)⟩

/-- C2, evaluated on the code: a socket that sends `join` for room `A` and then for
room `B` without leaving is an occupant of both rooms, and when it disconnects only
`B` is cleaned up, so `A` keeps the departed socket. -/
theorem join_second_room_keeps_first :
    "x" ∈ occupants (run init [.connect "x", .join "x" (some "A"), .join "x" (some "B")]).1 "A" ∧
    "x" ∈ occupants (run init [.connect "x", .join "x" (some "A"), .join "x" (some "B")]).1 "B" ∧
    (run init [.connect "x", .join "x" (some "A"), .join "x" (some "B"),
      .disconnect "x"]).1 = ⟨[("A", ["x"])], []⟩ := by
  decide

/-- C3: starting from the empty room table, after every finite sequence of events
(each handled to completion) every room id present in the table maps to a
non-empty occupant set, although `getPeers` creates rooms lazily. -/
theorem table_has_no_empty_room (evs : List Event) :
    ∀ p ∈ (run init evs).1.rooms, p.2 ≠ [] :=
  fun p hp => (reachable_roomsOk ⟨evs, rfl⟩ p hp).1

/-- Witness for C3: two sockets join a room, one leaves; the room stays with its
remaining occupant. -/
theorem table_has_no_empty_room_witness :
    ("r", ["b"]) ∈ (run init [.connect "a", .connect "b", .join "a" (some "r"),
        .join "b" (some "r"), .leave "a"]).1.rooms ∧ ["b"] ≠ [] :=
  ⟨by decide, table_has_no_empty_room [.connect "a", .connect "b", .join "a" (some "r"),
    .join "b" (some "r"), .leave "a"] ("r", ["b"]) (by decide)⟩

/-! ## Relay -/

/-- C4 as stated fails.  First run: `x` and `y` are both in the room named `x`;
the offer that `x` addresses to `y` is delivered to nobody, because a broadcast of
`x` excepts the room named `x` and `y` has joined it.  Second run: `a` and `b` share
room `r` and `a` sends an `sdp` that serialisation changes; `b` receives the
changed value. -/
theorem offer_lost_or_changed :
    truthy (currentRoomOf (run init [.connect "x", .connect "y", .join "x" (some "x"),
      .join "y" (some "x")]).1 "x") = some "x" ∧
    truthy (currentRoomOf (run init [.connect "x", .connect "y", .join "x" (some "x"),
      .join "y" (some "x")]).1 "y") = some "x" ∧
    (step (run init [.connect "x", .connect "y", .join "x" (some "x"),
      .join "y" (some "x")]).1 (.offer "x" (Val.json "[0]") "y")).2 = [] ∧
    (step (run init [.connect "a", .connect "b", .join "a" (some "r"),
      .join "b" (some "r")]).1 (.offer "a" (Val.unstable "1e400" "null") "b")).2 =
      [⟨"b", "offer", [[("sdp", Val.json "null"), ("from", Val.str "a")]]⟩] := by
  decide

/-- C4 amended: let `x` and `y` be distinct connected sockets that are each in a
room, neither having joined a room named by the id of the other.  An `offer` sent by
`x` with `to = y` is delivered to `y` with `from = x` and with the `sdp` as the
serialisation round trip leaves it, the same holds for an `answer` sent by `y` with
`to = x`, and the relay leaves the whole server state (room table, every
`currentRoom`) as it was.  The round trip leaves every string and every `json`
value identical. -/
theorem offer_answer_relayed (s : State) (x y : SocketId) (rx ry : String)
    (sdp sdp2 : Val) (hxy : x ≠ y)
    (hx : truthy (currentRoomOf s x) = some rx) (hy : truthy (currentRoomOf s y) = some ry)
    (jy : ∀ c ∈ s.conns, c.id = y → x ∉ c.joined)
    (jx : ∀ c ∈ s.conns, c.id = x → y ∉ c.joined) :
    (⟨y, "offer", [[("sdp", wire sdp), ("from", Val.str x)]]⟩ : Emit) ∈
      (step s (.offer x sdp y)).2 ∧
    (step s (.offer x sdp y)).1 = s ∧
    (⟨x, "answer", [[("sdp", wire sdp2), ("from", Val.str y)]]⟩ : Emit) ∈
      (step s (.answer y sdp2 x)).2 ∧
    (step s (.answer y sdp2 x)).1 = s ∧
    (∀ t : String, wire (Val.str t) = Val.str t) ∧
    (∀ t : String, wire (Val.json t) = Val.json t) := by
  obtain ⟨cx, hcx, htx⟩ := conn_of_truthy hx
  obtain ⟨cy, hcy, hty⟩ := conn_of_truthy hy
  obtain ⟨mx, ix⟩ := findConn_some hcx
  obtain ⟨my, iy⟩ := findConn_some hcy
  have rxy : inRoom cy y = true := by simp [inRoom, iy]
  have ryx : inRoom cx x = true := by simp [inRoom, ix]
  have nyx : inRoom cy x = false := by
    have := jy cy my iy
    simp [inRoom, iy, this]
    exact fun e => hxy e.symm
  have nxy : inRoom cx y = false := by
    have := jx cx mx ix
    simp [inRoom, ix, this]
    exact hxy
  have h1 := socketTo_mem (s := s) x y "offer" [[("sdp", sdp), ("from", Val.str x)]] my rxy nyx
  have h2 := socketTo_mem (s := s) y x "answer" [[("sdp", sdp2), ("from", Val.str y)]] mx ryx nxy
  rw [iy] at h1
  rw [ix] at h2
  simp only [step, withSocket, hcx, hcy, onOffer, onAnswer, htx, hty, ix, iy]
  exact ⟨h1, trivial, h2, trivial, fun _ => rfl, fun _ => rfl⟩

/-- Witness for C4 amended: `a` and `b` share room `r`. -/
theorem offer_answer_relayed_witness :
    (⟨"b", "offer", [[("sdp", Val.json "[0]"), ("from", Val.str "a")]]⟩ : Emit) ∈
      (step (run init [.connect "a", .connect "b", .join "a" (some "r"),
        .join "b" (some "r")]).1 (.offer "a" (Val.json "[0]") "b")).2 :=
  (offer_answer_relayed
    (run init [.connect "a", .connect "b", .join "a" (some "r"), .join "b" (some "r")]).1
    "a" "b" "r" "r" (Val.json "[0]") (Val.json "[1]")
    (by decide) (by decide) (by decide) (by decide) (by decide)).1

/-- C5 as stated fails: `y` joined room `r` and then sent `leave`, so it has left
(no current room, not an occupant), yet an `offer` that `x` addresses to `y` is still
delivered to `y`, because `y` stays connected and the relay looks only at the
sender's room. -/
theorem relay_reaches_socket_that_left :
    currentRoomOf (run init [.connect "x", .connect "y", .join "x" (some "r"),
      .join "y" (some "r"), .leave "y"]).1 "y" = none ∧
    occupants (run init [.connect "x", .connect "y", .join "x" (some "r"),
      .join "y" (some "r"), .leave "y"]).1 "r" = ["x"] ∧
    (step (run init [.connect "x", .connect "y", .join "x" (some "r"),
      .join "y" (some "r"), .leave "y"]).1 (.offer "x" (Val.json "sdp") "y")).2 =
      [⟨"y", "offer", [[("sdp", Val.json "sdp"), ("from", Val.str "x")]]⟩] := by
  decide

/-- C5 amended: when `y` is not connected any more and no connected socket has
entered a socket.io room named `y`, an `offer`, `answer` or `ice-candidate` that
any sender `x` addresses to `y` is delivered to nobody and leaves the server state
unchanged. -/
theorem relay_to_disconnected_dropped (s : State) (x y : SocketId) (body : Val)
    (hy : findConn s y = none) (hj : ∀ c ∈ s.conns, y ∉ c.joined) :
    step s (.offer x body y) = (s, []) ∧ step s (.answer x body y) = (s, []) ∧
    step s (.iceCandidate x body y) = (s, []) := by
  have hr : ∀ c ∈ s.conns, inRoom c y = false := by
    intro c hc
    simp [inRoom, findConn_none hy c hc, hj c hc]
  have hn : ∀ (sender event : String) (args : List Obj),
      socketTo s sender y event args = [] :=
    fun sender event args => socketTo_nil sender y event args hr
  simp only [step, withSocket, onOffer, onAnswer, onIceCandidate, hn]
  cases findConn s x with
  | none => exact ⟨rfl, rfl, rfl⟩
  | some sock =>
    simp only
    cases truthy sock.currentRoom <;> exact ⟨rfl, rfl, rfl⟩

/-- Witness for C5 amended: `y` shared room `r` with `x` and disconnected. -/
theorem relay_to_disconnected_dropped_witness :
    step (run init [.connect "x", .connect "y", .join "x" (some "r"), .join "y" (some "r"),
      .disconnect "y"]).1 (.offer "x" (Val.json "sdp") "y") =
      ((run init [.connect "x", .connect "y", .join "x" (some "r"), .join "y" (some "r"),
        .disconnect "y"]).1, []) :=
  (relay_to_disconnected_dropped
    (run init [.connect "x", .connect "y", .join "x" (some "r"), .join "y" (some "r"),
      .disconnect "y"]).1 "x" "y" (Val.json "sdp") (by decide) (by decide)).1

/-- C6, evaluated on the code: `b` joined room `r` and then sent `leave`; the table
lists only `a` for `r`, yet the `signal` that `a` sends is delivered to `b`, since
`cleanup` does not take the socket out of the socket.io room that `join` put it
in. -/
theorem signal_reaches_socket_that_left :
    occupants (run init [.connect "a", .connect "b", .join "a" (some "r"),
      .join "b" (some "r"), .leave "b"]).1 "r" = ["a"] ∧
    currentRoomOf (run init [.connect "a", .connect "b", .join "a" (some "r"),
      .join "b" (some "r"), .leave "b"]).1 "a" = some "r" ∧
    (step (run init [.connect "a", .connect "b", .join "a" (some "r"),
      .join "b" (some "r"), .leave "b"]).1 (.signal "a" [("type", Val.str "mic")])).2 =
      [⟨"b", "signal", [[("from", Val.str "a"), ("type", Val.str "mic")]]⟩] := by
  decide

/-- C7, evaluated on the code: `a` and `b` share room `r` and `a` sends a `signal`
whose payload has a `from` property; the delivered message carries that `from`, not
the id of `a`, since the payload is spread after `from: socket.id`. -/
theorem signal_from_overridden_by_payload :
    (step (run init [.connect "a", .connect "b", .join "a" (some "r"),
      .join "b" (some "r")]).1
      (.signal "a" [("from", Val.str "z"), ("type", Val.str "mic")])).2 =
      [⟨"b", "signal", [[("from", Val.str "z"), ("type", Val.str "mic")]]⟩] := by
  decide

/-! ## Leaving -/

/-- When `x` has no current room, `leave` is a no-op and `disconnect` only takes the
socket away: table, every `currentRoom` and the emissions are untouched. -/
theorem cleanup_without_room (s : State) (x : SocketId) (h : currentRoomOf s x = none) :
    step s (.leave x) = (s, []) ∧
    (step s (.disconnect x)).1.rooms = s.rooms ∧
    (∀ z, currentRoomOf (step s (.disconnect x)).1 z = currentRoomOf s z) ∧
    (step s (.disconnect x)).2 = [] := by
  simp only [step, withSocket]
  cases hf : findConn s x with
  | none => exact ⟨rfl, rfl, fun _ => rfl, rfl⟩
  | some sock =>
    have hc : sock.currentRoom = none := by
      unfold currentRoomOf at h
      rw [hf] at h
      exact h
    simp only [cleanup, hc, truthy]
    refine ⟨trivial, trivial, fun z => ?_, trivial⟩
    unfold currentRoomOf findConn
    simp only
    by_cases hz : z = x
    · subst hz
      rw [find_filter_self]
      unfold currentRoomOf findConn at h
      exact h.symm
    · rw [find_filter_other _ _ _ hz]

/-- After `leave` the socket has no current room. -/
theorem leave_clears_room (s : State) (x : SocketId) (hs : ConnsOk s.conns) :
    currentRoomOf (step s (.leave x)).1 x = none := by
  simp only [step, withSocket]
  cases hf : findConn s x with
  | none => simp [currentRoomOf, hf]
  | some sock =>
    simp only [cleanup]
    cases ht : truthy sock.currentRoom with
    | none =>
      have := truthy_eq_none ht (hs sock (findConn_some hf).1)
      simp [currentRoomOf, hf, this]
    | some r =>
      simp only
      unfold currentRoomOf findConn
      simp only
      unfold findConn at hf
      rw [find_putConn s.conns x sock ⟨sock.id, none, sock.joined⟩ hf rfl]
      rfl

/-- C8: in every reachable state, `leave` or `disconnect` of a socket `x` that has
no current room changes neither the room table nor any socket's current room and
emits nothing; hence `leave` followed by `leave` is the same as one `leave`, and
`leave` followed by `disconnect` gives the same table, the same current rooms and
the same emissions as one `leave`. -/
theorem leave_idempotent (s : State) (hs : Reachable s) (x : SocketId) :
    (currentRoomOf s x = none →
      step s (.leave x) = (s, []) ∧
      (step s (.disconnect x)).1.rooms = s.rooms ∧
      (∀ z, currentRoomOf (step s (.disconnect x)).1 z = currentRoomOf s z) ∧
      (step s (.disconnect x)).2 = []) ∧
    run s [.leave x, .leave x] = run s [.leave x] ∧
    (run s [.leave x, .disconnect x]).1.rooms = (run s [.leave x]).1.rooms ∧
    (∀ z, currentRoomOf (run s [.leave x, .disconnect x]).1 z =
      currentRoomOf (run s [.leave x]).1 z) ∧
    (run s [.leave x, .disconnect x]).2 = (run s [.leave x]).2 := by
  have hc : ConnsOk s.conns := by
    obtain ⟨evs, rfl⟩ := hs
    exact run_connsOk evs init (fun c hc => by simp [init] at hc)
  have h1 := leave_clears_room s x hc
  obtain ⟨a1, a2, a3, a4⟩ := cleanup_without_room (step s (.leave x)).1 x h1
  refine ⟨cleanup_without_room s x, ?_, ?_, ?_, ?_⟩
  · simp only [run, a1, List.append_nil]
  · simp only [run, a2]
  · intro z
    simp only [run, a3]
  · simp only [run, a4, List.append_nil]

/-- Witness for C8: `a` and `b` share room `r`; `a` leaves twice. -/
theorem leave_idempotent_witness :
    run (run init [.connect "a", .connect "b", .join "a" (some "r"),
      .join "b" (some "r")]).1 [.leave "a", .leave "a"] =
    run (run init [.connect "a", .connect "b", .join "a" (some "r"),
      .join "b" (some "r")]).1 [.leave "a"] :=
  (leave_idempotent (run init [.connect "a", .connect "b", .join "a" (some "r"),
    .join "b" (some "r")]).1
    ⟨[.connect "a", .connect "b", .join "a" (some "r"), .join "b" (some "r")], rfl⟩ "a").2.1

end Signaling

namespace Negotiation

/-! ## Offer collision -/

/-- C9 as stated fails.  Client `b` has sent its offer to `a` and then receives the
offer of `a`: on a peer connection that rolls back it sends an answer although `b`
does not sort lower than `a`; client `a`, in the same situation towards `b` on a
peer connection that rejects the inbound offer, sends no answer although `a` sorts
lower than `b`. -/
theorem pending_offer_collision_ignores_ids :
    sent (onPeerJoined (referencePc true) ⟨"b", some newPc, none⟩ "a").2 =
      [.emit "offer" (some ⟨"offer", "local"⟩) "a"] ∧
    sortsLower "b" "a" = false ∧
    sent (onOffer (referencePc true)
      (onPeerJoined (referencePc true) ⟨"b", some newPc, none⟩ "a").1
      ⟨"offer", "remote"⟩ "a").2 = [.emit "answer" (some ⟨"answer", "local"⟩) "a"] ∧
    sent (onPeerJoined (referencePc false) ⟨"a", some newPc, none⟩ "b").2 =
      [.emit "offer" (some ⟨"offer", "local"⟩) "b"] ∧
    sortsLower "a" "b" = true ∧
    sent (onOffer (referencePc false)
      (onPeerJoined (referencePc false) ⟨"a", some newPc, none⟩ "b").1
      ⟨"offer", "remote"⟩ "b").2 = [] := by
  decide

/-- C9 amended: a client that receives an inbound offer compares no identifiers and
does not look at whether an offer of its own is outstanding.  In every case it
records the sender as partner and keeps its own id.  When its peer connection
accepts the offer, creates an answer and accepts it as local description, the
client sends that answer to the sender and keeps the resulting peer connection;
without a peer connection, or when one of the three calls is rejected, it sends
nothing and keeps the peer connection as the last successful call left it.  Its
acts, its peer connection and its partner come out the same for every identifier
the client may have. -/
theorem onOffer_compares_no_ids {σ : Type} (api : PcApi σ) (c : Client σ)
    (sdp : Desc) (sender : String) :
    ((onOffer api c sdp sender).1.partnerId = some sender ∧
      (onOffer api c sdp sender).1.socketId = c.socketId) ∧
    (∀ id : String,
      (onOffer api ⟨id, c.pc, c.partnerId⟩ sdp sender).2 = (onOffer api c sdp sender).2 ∧
      (onOffer api ⟨id, c.pc, c.partnerId⟩ sdp sender).1.pc = (onOffer api c sdp sender).1.pc ∧
      (onOffer api ⟨id, c.pc, c.partnerId⟩ sdp sender).1.partnerId =
        (onOffer api c sdp sender).1.partnerId ∧
      (onOffer api ⟨id, c.pc, c.partnerId⟩ sdp sender).1.socketId = id) ∧
    (∀ (pc pc1 pc2 : σ) (answer : Desc), c.pc = some pc →
      api.setRemoteDescription pc sdp = .ok pc1 → api.createAnswer pc1 = .ok answer →
      api.setLocalDescription pc1 answer = .ok pc2 →
      onOffer api c sdp sender =
        (⟨c.socketId, some pc2, some sender⟩,
          [.emit "answer" (api.localDescription pc2) sender,
            .log "Received offer → sent answer"])) ∧
    (c.pc = none → onOffer api c sdp sender = (⟨c.socketId, none, some sender⟩, [])) ∧
    (∀ (pc : σ) (e : String), c.pc = some pc → api.setRemoteDescription pc sdp = .error e →
      onOffer api c sdp sender = (⟨c.socketId, some pc, some sender⟩, [])) ∧
    (∀ (pc pc1 : σ) (e : String), c.pc = some pc →
      api.setRemoteDescription pc sdp = .ok pc1 → api.createAnswer pc1 = .error e →
      onOffer api c sdp sender = (⟨c.socketId, some pc1, some sender⟩, [])) ∧
    (∀ (pc pc1 : σ) (answer : Desc) (e : String), c.pc = some pc →
      api.setRemoteDescription pc sdp = .ok pc1 → api.createAnswer pc1 = .ok answer →
      api.setLocalDescription pc1 answer = .error e →
      onOffer api c sdp sender = (⟨c.socketId, some pc1, some sender⟩, [])) := by
  refine ⟨?_, ?_, ?_, ?_, ?_, ?_, ?_⟩
  · unfold onOffer
    cases c.pc with
    | none => exact ⟨rfl, rfl⟩
    | some pc =>
      simp only
      cases api.setRemoteDescription pc sdp with
      | error e => exact ⟨rfl, rfl⟩
      | ok pc1 =>
        simp only
        cases api.createAnswer pc1 with
        | error e => exact ⟨rfl, rfl⟩
        | ok answer =>
          simp only
          cases api.setLocalDescription pc1 answer <;> exact ⟨rfl, rfl⟩
  · intro id
    unfold onOffer
    cases c.pc with
    | none => exact ⟨rfl, rfl, rfl, rfl⟩
    | some pc =>
      simp only
      cases api.setRemoteDescription pc sdp with
      | error e => exact ⟨rfl, rfl, rfl, rfl⟩
      | ok pc1 =>
        simp only
        cases api.createAnswer pc1 with
        | error e => exact ⟨rfl, rfl, rfl, rfl⟩
        | ok answer =>
          simp only
          cases api.setLocalDescription pc1 answer <;> exact ⟨rfl, rfl, rfl, rfl⟩
  · intro pc pc1 pc2 answer hpc h1 h2 h3
    simp only [onOffer, hpc, h1, h2, h3]
  · intro hpc
    simp only [onOffer, hpc]
  · intro pc e hpc h1
    simp only [onOffer, hpc, h1]
  · intro pc pc1 e hpc h1 h2
    simp only [onOffer, hpc, h1, h2]
  · intro pc pc1 answer e hpc h1 h2 h3
    simp only [onOffer, hpc, h1, h2, h3]

/-- Witness for C9 amended: client `b` with its own offer outstanding receives the
offer of `a`. -/
theorem onOffer_compares_no_ids_witness :
    (onOffer (referencePc true) ⟨"b", some ⟨"have-local-offer", some ⟨"offer", "local"⟩, none, 0⟩,
      some "a"⟩ ⟨"offer", "remote"⟩ "a").2 =
      [.emit "answer" (some ⟨"answer", "local"⟩) "a", .log "Received offer → sent answer"] :=
  congrArg Prod.snd ((onOffer_compares_no_ids (referencePc true)
    ⟨"b", some ⟨"have-local-offer", some ⟨"offer", "local"⟩, none, 0⟩, some "a"⟩
    ⟨"offer", "remote"⟩ "a").2.2.1
    ⟨"have-local-offer", some ⟨"offer", "local"⟩, none, 0⟩
    ⟨"have-remote-offer", some ⟨"offer", "local"⟩, some ⟨"offer", "remote"⟩, 0⟩
    ⟨"stable", some ⟨"answer", "local"⟩, some ⟨"offer", "remote"⟩, 0⟩
    ⟨"answer", "local"⟩ rfl rfl rfl rfl)

/-! ## ICE restart -/

theorem restartCount_append (a b : List Act) :
    restartCount (a ++ b) = restartCount a + restartCount b := by
  unfold restartCount
  exact List.count_append _ _ _

theorem onconnectionstatechange_spec {σ : Type} (api : PcApi σ) (c : Client σ) (pc : σ)
    (restart : σ → σ) (st : String) (hpc : c.pc = some pc) (hr : api.restartIce = some restart) :
    (∃ pc2, (onconnectionstatechange api c st).1.pc = some pc2) ∧
    restartCount (onconnectionstatechange api c st).2 = [st].count "failed" := by
  unfold onconnectionstatechange
  simp only [hpc, hr]
  by_cases h : st = "failed"
  · subst h
    refine ⟨⟨restart pc, by simp⟩, ?_⟩
    simp [restartCount, List.count_cons]
  · simp only [h, if_false]
    refine ⟨⟨pc, hpc⟩, ?_⟩
    simp [restartCount, List.count_cons, h]

/-- C10 as stated fails: the peer connection reports `failed`, `connecting` after the
restart, and `failed` again; `pc.restartIce()` is called a second time. -/
theorem second_failure_restarts_again :
    restartCount (reportStates (referencePc true) ⟨"a", some newPc, some "b"⟩
      ["failed", "connecting", "failed"]).2 = 2 := by
  decide

/-- C10 amended: on a peer connection that has `restartIce`, the client calls it
once for every `failed` report; over any sequence of connection-state changes the
number of restarts equals the number of `failed` reports. -/
theorem restart_on_every_failure {σ : Type} (api : PcApi σ) (c : Client σ) (pc : σ)
    (restart : σ → σ) (states : List String)
    (hpc : c.pc = some pc) (hr : api.restartIce = some restart) :
    restartCount (reportStates api c states).2 = states.count "failed" := by
  induction states generalizing c pc with
  | nil => rfl
  | cons st sts ih =>
    obtain ⟨⟨pc2, h2⟩, hc⟩ := onconnectionstatechange_spec api c pc restart st hpc hr
    simp only [reportStates, restartCount_append, hc, ih _ pc2 h2]
    rw [List.count_cons, List.count_cons, List.count_nil]
    omega

/-- Witness for C10 amended: three failures, three restarts. -/
theorem restart_on_every_failure_witness :
    restartCount (reportStates (referencePc true) ⟨"a", some newPc, some "b"⟩
      ["failed", "failed", "connected", "failed"]).2 =
      ["failed", "failed", "connected", "failed"].count "failed" :=
  restart_on_every_failure (referencePc true) ⟨"a", some newPc, some "b"⟩ newPc
    (fun pc => ⟨pc.signalingState, pc.localDescription, pc.remoteDescription, pc.iceRestarts + 1⟩)
    ["failed", "failed", "connected", "failed"] rfl rfl

end Negotiation
